import Mathlib

/-
  Verification of the GCD algorithm family of the number-theory-algorithms
  repository.

  The C type GcdInteger (= MathInteger = int64_t) is modelled as Int.  The C
  operators `/` and `%` on signed integers truncate toward zero, so they are
  modelled by Int.tdiv and Int.tmod.  LLONG_MIN is modelled as the explicit
  constant -(2^63).  The one place where the C division arithmetic can leave
  the int64 range is LLONG_MIN / -1 (and with it LLONG_MIN % -1), whose
  quotient 2^63 is unrepresentable - undefined behavior in C; the Euclidean
  recursion meets it exactly at the argument pairs (LLONG_MIN, -1) and
  (-1, LLONG_MIN).  mdc_ext_i64 models that trap explicitly (none =
  undefined behavior); the remaining theorems restrict their domains (both
  operands strictly between -2^63 and 2^63, the two trap pairs excluded
  where relevant, or nonnegative operands) so that on every execution path
  inside those domains all intermediate values of the modelled code are
  representable in int64 and the Int model is exact.  The divergence
  statements about the subtraction variants are likewise made only where
  the diverging loop is stuck at a fixed point whose values are int64
  representable, so they hold for the program and not just the model.

  Loops and recursions of the source that terminate on every input are
  modelled as well-founded recursive functions mirroring the C control flow;
  loops that can diverge (the subtraction variants, Stein) are modelled with
  an explicit fuel parameter, `none` meaning the fuel was exhausted.  For the
  always-terminating functions a fuel version is given as well, so that
  termination is a provable statement (for every input some finite fuel
  suffices) rather than a side effect of the embedding.
-/

set_option maxHeartbeats 1000000

-- ===========================================================================
-- Preliminary facts about truncated remainder (needed for termination proofs)
-- ===========================================================================

/-- Magnitude of the C remainder `a % b`: |a tmod b| = |a| mod |b|. -/
theorem natAbs_tmod (a b : Int) : (a.tmod b).natAbs = a.natAbs % b.natAbs := by
  cases a <;> cases b <;> simp only [Int.tmod, Int.natAbs_neg] <;> rfl

/-- For a nonzero divisor the C remainder is strictly smaller in magnitude. -/
theorem natAbs_tmod_lt (a b : Int) (h : b ≠ 0) : (a.tmod b).natAbs < b.natAbs := by
  rw [natAbs_tmod]
  exact Nat.mod_lt _ (Int.natAbs_pos.mpr h)

/-- A dividend smaller in magnitude than the divisor is its own C remainder. -/
theorem tmod_eq_self (a b : Int) (h : a.natAbs < b.natAbs) : a.tmod b = a := by
  cases a with
  | ofNat m =>
    cases b with
    | ofNat n =>
      simp only [Int.tmod, Int.natAbs] at h ⊢
      rw [Nat.mod_eq_of_lt h]
    | negSucc n =>
      simp only [Int.tmod, Int.natAbs] at h ⊢
      rw [Nat.mod_eq_of_lt h]
  | negSucc m =>
    cases b with
    | ofNat n =>
      simp only [Int.tmod, Int.natAbs] at h ⊢
      rw [Nat.mod_eq_of_lt h]
      rfl
    | negSucc n =>
      simp only [Int.tmod, Int.natAbs] at h ⊢
      rw [Nat.mod_eq_of_lt h]
      rfl

-- ===========================================================================
-- Shared constants and macros (mathematical_types.h)
-- ===========================================================================

/-- The MATH_ABS macro from mathematical_types.h: ((x) < 0 ? -(x) : (x)). -/
def MATH_ABS (x : Int) : Int := if x < 0 then -x else x

/-- LLONG_MIN, the minimum int64 value, as an integer. -/
def LLONG_MIN : Int := -(2 ^ 63)

/-- MATH_INVALID_VALUE from mathematical_types.h: ((MathInteger)(-1)). -/
def MATH_INVALID_VALUE : Int := -1

/-- The MathStatus enum from mathematical_types.h. -/
inductive MathStatus where
  | success
  | errorInvalidInput
  | errorDivisionByZero
  | errorOverflow
  | errorUnderflow
  | errorNoSolution
  | errorTimeout
  | errorMemory
  | errorNotImplemented
  | errorUnknown
deriving DecidableEq

/-- The MathResult struct from mathematical_types.h.  The wall-clock field
execution_time_ms (a double) is not modelled; no claim mentions it. -/
structure MathResult where
  value : Int
  status : MathStatus
  is_valid : Bool
  iterations : Nat
deriving DecidableEq

/-- math_create_success_result from math_utils.c (timing argument dropped). -/
def math_create_success_result (value : Int) (iterations : Nat) : MathResult :=
  ⟨value, MathStatus.success, true, iterations⟩

/-- math_create_error_result from math_utils.c (timing argument dropped). -/
def math_create_error_result (error_status : MathStatus) (iterations : Nat) : MathResult :=
  ⟨MATH_INVALID_VALUE, error_status, false, iterations⟩

/-- math_safe_abs from math_utils.c; `none` models the MATH_ERROR_OVERFLOW
return (the NULL-pointer guard of the C code is not representable here). -/
def math_safe_abs (value : Int) : Option Int :=
  if value = LLONG_MIN then none
  else some (if value < 0 then -value else value)

-- ===========================================================================
-- The seven algorithm functions
-- ===========================================================================

/-- The while loop of mdc_modulo (classic.c lines 33-38):
while (b != 0) { temp = b; b = a % b; a = temp; } return a. -/
def mdcModuloGo (a b : Int) : Int :=
  if b = 0 then a else mdcModuloGo b (a.tmod b)
termination_by b.natAbs
decreasing_by exact natAbs_tmod_lt a b (by assumption)

/-- mdc_modulo from classic.c lines 29-40. -/
def mdc_modulo (a b : Int) : Int :=
  if a = 0 ∧ b = 0 then 0 else mdcModuloGo a b

/-- The while loop of mdc_divisao (classic.c lines 75-81):
quociente = a / b; resto = a - b * quociente; a = b; b = resto. -/
def mdcDivisaoGo (a b : Int) : Int :=
  if b = 0 then a else mdcDivisaoGo b (a - b * a.tdiv b)
termination_by b.natAbs
decreasing_by
  rw [← Int.tmod_def]
  exact natAbs_tmod_lt a b (by assumption)

/-- mdc_divisao from classic.c lines 70-83. -/
def mdc_divisao (a b : Int) : Int :=
  if a = 0 ∧ b = 0 then 0 else mdcDivisaoGo a b

/-- mdc_mod from recursive.c lines 29-34:
if (b == 0) return a; return mdc_mod(b, a % b). -/
def mdc_mod (a b : Int) : Int :=
  if b = 0 then a else mdc_mod b (a.tmod b)
termination_by b.natAbs
decreasing_by exact natAbs_tmod_lt a b (by assumption)

/-- The (g, x, y) triple produced by the extended Euclidean algorithm
(the C function returns g and writes x, y through pointers). -/
structure ExtendedTriple where
  g : Int
  x : Int
  y : Int
deriving DecidableEq

/-- mdc_ext from recursive.c lines 55-68: base case (a, 1, 0) for b = 0,
otherwise recurse on (b, a % b) and back-substitute
x = y1, y = x1 - (a / b) * y1. -/
def mdc_ext (a b : Int) : ExtendedTriple :=
  if b = 0 then ⟨a, 1, 0⟩
  else
    let r := mdc_ext b (a.tmod b)
    ⟨r.g, r.y, r.x - a.tdiv b * r.y⟩
termination_by b.natAbs
decreasing_by exact natAbs_tmod_lt a b (by assumption)

-- ===========================================================================
-- Fuel-indexed versions (termination as a statement; kernel-evaluable)
-- ===========================================================================

/-- Fuel version of the mdc_modulo loop; one unit of fuel per iteration. -/
def mdcModuloFuel : Nat → Int → Int → Option Int
  | 0, _, _ => none
  | n + 1, a, b => if b = 0 then some a else mdcModuloFuel n b (a.tmod b)

/-- Fuel version of mdc_modulo. -/
def mdc_modulo_fuel (n : Nat) (a b : Int) : Option Int :=
  if a = 0 ∧ b = 0 then some 0 else mdcModuloFuel n a b

/-- Fuel version of the mdc_divisao loop. -/
def mdcDivisaoFuel : Nat → Int → Int → Option Int
  | 0, _, _ => none
  | n + 1, a, b => if b = 0 then some a else mdcDivisaoFuel n b (a - b * a.tdiv b)

/-- Fuel version of mdc_divisao. -/
def mdc_divisao_fuel (n : Nat) (a b : Int) : Option Int :=
  if a = 0 ∧ b = 0 then some 0 else mdcDivisaoFuel n a b

/-- Fuel version of mdc_mod. -/
def mdc_mod_fuel : Nat → Int → Int → Option Int
  | 0, _, _ => none
  | n + 1, a, b => if b = 0 then some a else mdc_mod_fuel n b (a.tmod b)

/-- Fuel version of mdc_ext. -/
def mdc_ext_fuel : Nat → Int → Int → Option ExtendedTriple
  | 0, _, _ => none
  | n + 1, a, b =>
    if b = 0 then some ⟨a, 1, 0⟩
    else
      match mdc_ext_fuel n b (a.tmod b) with
      | none => none
      | some r => some ⟨r.g, r.y, r.x - a.tdiv b * r.y⟩

/-- mdc_ext over int64 semantics: the same recursion as mdc_ext, but where
the C would evaluate LLONG_MIN % -1 together with LLONG_MIN / -1 - whose
quotient 2^63 does not fit in int64, undefined behavior - the model returns
none instead of a triple.  Everywhere else the arithmetic of the recursion
stays inside int64 and agrees with mdc_ext. -/
def mdc_ext_i64 (a b : Int) : Option ExtendedTriple :=
  if b = 0 then some ⟨a, 1, 0⟩
  else if a = LLONG_MIN ∧ b = -1 then none
  else
    match mdc_ext_i64 b (a.tmod b) with
    | none => none
    | some r => some ⟨r.g, r.y, r.x - a.tdiv b * r.y⟩
termination_by b.natAbs
decreasing_by exact natAbs_tmod_lt a b (by assumption)

/-- mdc_sub from recursive.c lines 41-48, with fuel (the C recursion does not
terminate on some inputs, e.g. (5, 0)):
if (a == b) return a; if (a > b) return mdc_sub(a - b, b);
return mdc_sub(a, b - a). -/
def mdc_sub_fuel : Nat → Int → Int → Option Int
  | 0, _, _ => none
  | n + 1, a, b =>
    if a = b then some a
    else if a > b then mdc_sub_fuel n (a - b) b
    else mdc_sub_fuel n a (b - a)

/-- The while loop of mdc_subtracao (classic.c lines 55-61), with fuel:
while (a != b) { if (a > b) a = a - b; else b = b - a; } return a. -/
def mdcSubtracaoLoopFuel : Nat → Int → Int → Option Int
  | 0, _, _ => none
  | n + 1, a, b =>
    if a = b then some a
    else if a > b then mdcSubtracaoLoopFuel n (a - b) b
    else mdcSubtracaoLoopFuel n a (b - a)

/-- mdc_subtracao from classic.c lines 47-63: negate negative operands,
return 0 when both are zero, then run the subtraction loop. -/
def mdc_subtracao_fuel (n : Nat) (a b : Int) : Option Int :=
  let a2 := if a < 0 then -a else a
  let b2 := if b < 0 then -b else b
  if a2 = 0 ∧ b2 = 0 then some 0 else mdcSubtracaoLoopFuel n a2 b2

-- ===========================================================================
-- Stein binary GCD (stein.c lines 31-73), with fuel
-- ===========================================================================

/-
  C bit operations on int64, for the values these claims range over:
  ((a | b) & 1) == 0 tests that both a and b are even, (x & 1) == 0 tests
  that x is even; evenness of a two's-complement integer is x.emod 2 = 0.
  x >>= 1 is an arithmetic shift, i.e. floor division by two (Int.fdiv);
  a << shift multiplies by 2 ^ shift.
-/

/-- First loop of mdc_stein (lines 41-46): while both operands are even,
halve both and count the shared factor of two. -/
def steinCommonFuel : Nat → Int → Int → Nat → Option (Int × Int × Nat)
  | 0, _, _, _ => none
  | n + 1, a, b, shift =>
    if a.emod 2 = 0 ∧ b.emod 2 = 0 then
      steinCommonFuel n (a.fdiv 2) (b.fdiv 2) (shift + 1)
    else some (a, b, shift)

/-- Factor-of-two stripping loop of mdc_stein (lines 49-50 for a, 56-57
for b): while the value is even, halve it. -/
def steinOddFuel : Nat → Int → Option Int
  | 0, _ => none
  | n + 1, a => if a.emod 2 = 0 then steinOddFuel n (a.fdiv 2) else some a

/-- Main loop of mdc_stein (lines 53-69): while b is nonzero, strip factors
of two from b, then subtract the smaller value from the larger. -/
def steinMainFuel : Nat → Nat → Int → Int → Option Int
  | 0, _, _, _ => none
  | n + 1, m, a, b =>
    if b = 0 then some a
    else
      match steinOddFuel m b with
      | none => none
      | some b2 => if a > b2 then steinMainFuel n m (a - b2) b2 else steinMainFuel n m a (b2 - a)

/-- mdc_stein from stein.c lines 31-73, with fuel n for the halving/main
loops and m for the stripping loops. -/
def mdc_stein_fuel (n m : Nat) (a b : Int) : Option Int :=
  if a = 0 then some b
  else if b = 0 then some a
  else
    match steinCommonFuel n a b 0 with
    | none => none
    | some (a1, b1, shift) =>
      match steinOddFuel m a1 with
      | none => none
      | some a2 => Option.map (fun r => r * 2 ^ shift) (steinMainFuel n m a2 b1)

-- ===========================================================================
-- Validation layer (challenge_validation.c, math_utils.c)
-- ===========================================================================

/-- gcd_validate_input from challenge_validation.c lines 28-41: the input is
rejected only when BOTH operands equal LLONG_MIN. -/
def gcd_validate_input (a b : Int) : Bool :=
  if a = LLONG_MIN ∧ b = LLONG_MIN then false else true

/-- math_validate_gcd_input from math_utils.c lines 392-402: rejected when
EITHER operand equals LLONG_MIN. -/
def math_validate_gcd_input (a b : Int) : MathStatus :=
  if a = LLONG_MIN ∨ b = LLONG_MIN then MathStatus.errorOverflow
  else MathStatus.success

/-- gcd_reference_implementation from challenge_validation.c lines 200-231:
gcd(0,0) = 0; otherwise take absolute values, handle one-zero cases, then run
the iterative modulo loop (the same loop as mdc_modulo, on the magnitudes). -/
def gcd_reference_implementation (a b : Int) : Int :=
  if a = 0 ∧ b = 0 then 0
  else
    let abs_a := if a < 0 then -a else a
    let abs_b := if b < 0 then -b else b
    if abs_a = 0 then abs_b
    else if abs_b = 0 then abs_a
    else mdcModuloGo abs_a abs_b

/-- gcd_validate_result from challenge_validation.c lines 58-100. -/
def gcd_validate_result (a b result : Int) : Bool :=
  if a = 0 ∧ b = 0 then decide (result = 0)
  else if result ≤ 0 then false
  else
    let abs_a := if a < 0 then -a else a
    let abs_b := if b < 0 then -b else b
    if a = 0 then decide (result = abs_b)
    else if b = 0 then decide (result = abs_a)
    else if abs_a.tmod result ≠ 0 ∨ abs_b.tmod result ≠ 0 then false
    else
      let reduced_a := abs_a.tdiv result
      let reduced_b := abs_b.tdiv result
      decide (gcd_reference_implementation reduced_a reduced_b = 1)

/-- math_handle_gcd_special_cases from math_utils.c lines 316-383; `some r`
models the C function returning true with *result = r, `none` models the
return of false (normal computation needed).  The NULL guard is dropped. -/
def math_handle_gcd_special_cases (a b : Int) : Option MathResult :=
  if a = 0 ∧ b = 0 then some (math_create_success_result 0 0)
  else if b = 0 then
    some (match math_safe_abs a with
      | none => math_create_error_result MathStatus.errorOverflow 0
      | some abs_a => math_create_success_result abs_a 0)
  else if a = 0 then
    some (match math_safe_abs b with
      | none => math_create_error_result MathStatus.errorOverflow 0
      | some abs_b => math_create_success_result abs_b 0)
  else if a = b then
    some (match math_safe_abs a with
      | none => math_create_error_result MathStatus.errorOverflow 0
      | some abs_a => math_create_success_result abs_a 0)
  else if MATH_ABS a = 1 ∨ MATH_ABS b = 1 then
    some (math_create_success_result 1 0)
  else none

/-- Common shape of the compute entry points (euclidean_modulo_compute,
euclidean_subtraction_compute, euclidean_division_compute, the recursive
counterparts and stein_binary_compute, e.g. classic.c lines 113-135): after
the non-NULL check, the special cases are consulted first and their result
returned as is; only otherwise is the algorithm run and its value wrapped in
a success result (iterations 0; timing dropped).  The algorithm is a
parameter, so facts proved for every `alg` hold for each of the entry points
and show the special-case path does not run the algorithm at all. -/
def gcd_compute_entry (alg : Int → Int → Int) (a b : Int) : MathResult :=
  match math_handle_gcd_special_cases a b with
  | some special_result => special_result
  | none => math_create_success_result (alg a b) 0

-- ===========================================================================
-- Helper lemmas: the Euclidean family
-- ===========================================================================

/-- The magnitude of the value computed by the modulo loop is gcd(|a|, |b|). -/
theorem mdcModuloGo_natAbs (a b : Int) : (mdcModuloGo a b).natAbs = Int.gcd a b := by
  rw [mdcModuloGo]
  by_cases hb : b = 0
  · simp [hb, Int.gcd]
  · rw [if_neg hb, mdcModuloGo_natAbs b (a.tmod b)]
    simp only [Int.gcd, natAbs_tmod]
    rw [Nat.gcd_comm, ← Nat.gcd_rec, Nat.gcd_comm]
termination_by b.natAbs
decreasing_by exact natAbs_tmod_lt a b hb

/-- On nonnegative inputs the modulo loop stays nonnegative. -/
theorem mdcModuloGo_nonneg (a b : Int) (ha : 0 ≤ a) (hb : 0 ≤ b) :
    0 ≤ mdcModuloGo a b := by
  rw [mdcModuloGo]
  by_cases h : b = 0
  · simpa [h] using ha
  · rw [if_neg h]
    exact mdcModuloGo_nonneg b (a.tmod b) hb (Int.tmod_nonneg b ha)
termination_by b.natAbs
decreasing_by exact natAbs_tmod_lt a b h

/-- On nonnegative inputs the modulo loop computes the gcd exactly. -/
theorem mdcModuloGo_eq_gcd (a b : Int) (ha : 0 ≤ a) (hb : 0 ≤ b) :
    mdcModuloGo a b = Int.gcd a b := by
  have h1 := mdcModuloGo_natAbs a b
  have h2 := mdcModuloGo_nonneg a b ha hb
  omega

/-- The outer 0,0 test of mdc_modulo is redundant: the function equals its
own loop everywhere. -/
theorem mdc_modulo_eq_go (a b : Int) : mdc_modulo a b = mdcModuloGo a b := by
  rw [mdc_modulo]
  by_cases h : a = 0 ∧ b = 0
  · rw [if_pos h, mdcModuloGo, if_pos h.2, h.1]
  · rw [if_neg h]

/-- The division loop computes the remainder manually but agrees with the
modulo loop everywhere. -/
theorem mdcDivisaoGo_eq (a b : Int) : mdcDivisaoGo a b = mdcModuloGo a b := by
  rw [mdcDivisaoGo, mdcModuloGo]
  by_cases hb : b = 0
  · simp [hb]
  · rw [if_neg hb, if_neg hb, ← Int.tmod_def, mdcDivisaoGo_eq b (a.tmod b)]
termination_by b.natAbs
decreasing_by exact natAbs_tmod_lt a b hb

/-- mdc_divisao agrees with the modulo loop everywhere. -/
theorem mdc_divisao_eq_go (a b : Int) : mdc_divisao a b = mdcModuloGo a b := by
  rw [mdc_divisao]
  by_cases h : a = 0 ∧ b = 0
  · rw [if_pos h, mdcModuloGo, if_pos h.2, h.1]
  · rw [if_neg h, mdcDivisaoGo_eq]

/-- The recursive modulo variant is the same recursion as the iterative loop. -/
theorem mdc_mod_eq_go (a b : Int) : mdc_mod a b = mdcModuloGo a b := by
  rw [mdc_mod, mdcModuloGo]
  by_cases hb : b = 0
  · simp [hb]
  · rw [if_neg hb, if_neg hb, mdc_mod_eq_go b (a.tmod b)]
termination_by b.natAbs
decreasing_by exact natAbs_tmod_lt a b hb

/-- The gcd component of the extended algorithm is the plain recursive gcd. -/
theorem mdc_ext_g_eq (a b : Int) : (mdc_ext a b).g = mdcModuloGo a b := by
  rw [mdc_ext, mdcModuloGo]
  by_cases hb : b = 0
  · simp [hb]
  · rw [if_neg hb, if_neg hb, ← mdc_ext_g_eq b (a.tmod b)]
termination_by b.natAbs
decreasing_by exact natAbs_tmod_lt a b hb

/-- Bezout identity for the extended algorithm, by the back-substitution
computation of the source. -/
theorem mdc_ext_bezout (a b : Int) :
    a * (mdc_ext a b).x + b * (mdc_ext a b).y = (mdc_ext a b).g := by
  rw [mdc_ext]
  by_cases hb : b = 0
  · simp [hb]
  · rw [if_neg hb]
    have ih := mdc_ext_bezout b (a.tmod b)
    have hdef : a.tmod b = a - b * a.tdiv b := Int.tmod_def a b
    show a * (mdc_ext b (a.tmod b)).y +
        b * ((mdc_ext b (a.tmod b)).x - a.tdiv b * (mdc_ext b (a.tmod b)).y) =
        (mdc_ext b (a.tmod b)).g
    linear_combination ih - (mdc_ext b (a.tmod b)).y * hdef
termination_by b.natAbs
decreasing_by exact natAbs_tmod_lt a b hb

-- ===========================================================================
-- Helper lemmas: fuel versions of the total variants
-- ===========================================================================

/-- A successful fuel run of the modulo loop returns its value. -/
theorem mdcModuloFuel_sound : ∀ (n : Nat) (a b r : Int),
    mdcModuloFuel n a b = some r → mdcModuloGo a b = r := by
  intro n
  induction n with
  | zero => intro a b r h; simp [mdcModuloFuel] at h
  | succ n ih =>
    intro a b r h
    rw [mdcModuloGo]
    by_cases hb : b = 0
    · simp [mdcModuloFuel, hb] at h
      simp [hb, h]
    · simp only [mdcModuloFuel, if_neg hb] at h
      rw [if_neg hb]
      exact ih b (a.tmod b) r h

/-- Fuel |b| + 1 is enough for the modulo loop. -/
theorem mdcModuloFuel_complete : ∀ (N : Nat) (a b : Int), b.natAbs ≤ N →
    mdcModuloFuel (N + 1) a b = some (mdcModuloGo a b) := by
  intro N
  induction N with
  | zero =>
    intro a b hN
    have hb : b = 0 := by omega
    simp [mdcModuloFuel, hb, mdcModuloGo]
  | succ N ih =>
    intro a b hN
    by_cases hb : b = 0
    · simp [mdcModuloFuel, hb, mdcModuloGo]
    · rw [mdcModuloGo, if_neg hb]
      simp only [mdcModuloFuel, if_neg hb]
      exact ih b (a.tmod b) (by have := natAbs_tmod_lt a b hb; omega)

/-- A successful fuel run of the division loop returns its value. -/
theorem mdcDivisaoFuel_sound : ∀ (n : Nat) (a b r : Int),
    mdcDivisaoFuel n a b = some r → mdcDivisaoGo a b = r := by
  intro n
  induction n with
  | zero => intro a b r h; simp [mdcDivisaoFuel] at h
  | succ n ih =>
    intro a b r h
    rw [mdcDivisaoGo]
    by_cases hb : b = 0
    · simp [mdcDivisaoFuel, hb] at h
      simp [hb, h]
    · simp only [mdcDivisaoFuel, if_neg hb] at h
      rw [if_neg hb]
      exact ih b (a - b * a.tdiv b) r h

/-- Fuel |b| + 1 is enough for the division loop. -/
theorem mdcDivisaoFuel_complete : ∀ (N : Nat) (a b : Int), b.natAbs ≤ N →
    mdcDivisaoFuel (N + 1) a b = some (mdcDivisaoGo a b) := by
  intro N
  induction N with
  | zero =>
    intro a b hN
    have hb : b = 0 := by omega
    simp [mdcDivisaoFuel, hb, mdcDivisaoGo]
  | succ N ih =>
    intro a b hN
    by_cases hb : b = 0
    · simp [mdcDivisaoFuel, hb, mdcDivisaoGo]
    · rw [mdcDivisaoGo, if_neg hb]
      simp only [mdcDivisaoFuel, if_neg hb]
      refine ih b (a - b * a.tdiv b) ?_
      rw [← Int.tmod_def]
      have := natAbs_tmod_lt a b hb
      omega

/-- A successful fuel run of mdc_mod returns its value. -/
theorem mdc_mod_fuel_sound : ∀ (n : Nat) (a b r : Int),
    mdc_mod_fuel n a b = some r → mdc_mod a b = r := by
  intro n
  induction n with
  | zero => intro a b r h; simp [mdc_mod_fuel] at h
  | succ n ih =>
    intro a b r h
    rw [mdc_mod]
    by_cases hb : b = 0
    · simp [mdc_mod_fuel, hb] at h
      simp [hb, h]
    · simp only [mdc_mod_fuel, if_neg hb] at h
      rw [if_neg hb]
      exact ih b (a.tmod b) r h

/-- Fuel |b| + 1 is enough for mdc_mod. -/
theorem mdc_mod_fuel_complete : ∀ (N : Nat) (a b : Int), b.natAbs ≤ N →
    mdc_mod_fuel (N + 1) a b = some (mdc_mod a b) := by
  intro N
  induction N with
  | zero =>
    intro a b hN
    have hb : b = 0 := by omega
    simp [mdc_mod_fuel, hb, mdc_mod]
  | succ N ih =>
    intro a b hN
    by_cases hb : b = 0
    · simp [mdc_mod_fuel, hb, mdc_mod]
    · rw [mdc_mod, if_neg hb]
      simp only [mdc_mod_fuel, if_neg hb]
      exact ih b (a.tmod b) (by have := natAbs_tmod_lt a b hb; omega)

/-- Fuel |b| + 1 is enough for mdc_ext. -/
theorem mdc_ext_fuel_complete : ∀ (N : Nat) (a b : Int), b.natAbs ≤ N →
    mdc_ext_fuel (N + 1) a b = some (mdc_ext a b) := by
  intro N
  induction N with
  | zero =>
    intro a b hN
    have hb : b = 0 := by omega
    simp [mdc_ext_fuel, hb, mdc_ext]
  | succ N ih =>
    intro a b hN
    by_cases hb : b = 0
    · simp [mdc_ext_fuel, hb, mdc_ext]
    · have h2 := ih b (a.tmod b) (by have := natAbs_tmod_lt a b hb; omega)
      rw [mdc_ext, if_neg hb]
      simp only [mdc_ext_fuel, if_neg hb]
      simp only [mdc_ext_fuel] at h2
      rw [h2]

/-- Away from the two trapping pairs (LLONG_MIN, -1) and (-1, LLONG_MIN),
and with both arguments in int64 range, the int64-checked extended
algorithm never meets the overflowing division and agrees with mdc_ext. -/
theorem mdc_ext_i64_eq (a b : Int)
    (ha1 : -(2 ^ 63) ≤ a) (ha2 : a < 2 ^ 63) (hb1 : -(2 ^ 63) ≤ b) (hb2 : b < 2 ^ 63)
    (h1 : ¬(a = LLONG_MIN ∧ b = -1)) (h2 : ¬(a = -1 ∧ b = LLONG_MIN)) :
    mdc_ext_i64 a b = some (mdc_ext a b) := by
  rw [mdc_ext_i64, mdc_ext]
  by_cases hb0 : b = 0
  · simp [hb0]
  · rw [if_neg hb0, if_neg hb0, if_neg h1]
    have hM : LLONG_MIN = -(2 ^ 63) := rfl
    have htlt := natAbs_tmod_lt a b hb0
    have hbabs : b.natAbs ≤ 2 ^ 63 := by omega
    have hrange1 : -(2 ^ 63) ≤ a.tmod b := by omega
    have hrange2 : a.tmod b < 2 ^ 63 := by omega
    have hg1 : ¬(b = LLONG_MIN ∧ a.tmod b = -1) := by
      rintro ⟨hbM, htm⟩
      by_cases haM : a = LLONG_MIN
      · rw [haM, hbM, Int.tmod_self] at htm
        exact absurd htm (by decide)
      · have hbabs2 : b.natAbs = 2 ^ 63 := by omega
        have habs : a.natAbs < 2 ^ 63 := by omega
        have heq : a.tmod b = a := tmod_eq_self a b (by omega)
        rw [heq] at htm
        exact h2 ⟨htm, hbM⟩
    have hg2 : ¬(b = -1 ∧ a.tmod b = LLONG_MIN) := by
      rintro ⟨hbm1, htm⟩
      rw [hbm1, show ((-1) : Int) = -(1 : Int) from rfl, Int.tmod_neg, Int.tmod_one] at htm
      omega
    rw [mdc_ext_i64_eq b (a.tmod b) hb1 hb2 hrange1 hrange2 hg1 hg2]
termination_by b.natAbs
decreasing_by exact natAbs_tmod_lt a b hb0

-- ===========================================================================
-- Helper lemmas: the subtraction variants
-- ===========================================================================

/-- The iterative subtraction loop and the recursive mdc_sub are the same
recursion, step for step. -/
theorem mdcSubtracaoLoopFuel_eq : ∀ (n : Nat) (a b : Int),
    mdcSubtracaoLoopFuel n a b = mdc_sub_fuel n a b := by
  intro n
  induction n with
  | zero => intro a b; rfl
  | succ n ih =>
    intro a b
    simp only [mdcSubtracaoLoopFuel, mdc_sub_fuel]
    by_cases h1 : a = b
    · simp [h1]
    · by_cases h2 : a > b <;> simp [h1, h2, ih]

/-- The subtraction recursion is symmetric in its two arguments, fuel for
fuel. -/
theorem mdc_sub_fuel_comm : ∀ (n : Nat) (a b : Int),
    mdc_sub_fuel n a b = mdc_sub_fuel n b a := by
  intro n
  induction n with
  | zero => intro a b; rfl
  | succ n ih =>
    intro a b
    simp only [mdc_sub_fuel]
    by_cases h1 : a = b
    · simp [h1]
    · have hne : ¬b = a := fun h => h1 h.symm
      rw [if_neg h1, if_neg hne]
      by_cases h2 : a > b
      · have h3 : ¬b > a := by omega
        rw [if_pos h2, if_neg h3, ih]
      · have h3 : b > a := by omega
        rw [if_neg h2, if_pos h3, ih]

/-- On two positive operands the subtraction recursion terminates within
|a| + |b| steps. -/
theorem mdc_sub_fuel_pos : ∀ (N : Nat) (a b : Int), 0 < a → 0 < b →
    a.natAbs + b.natAbs ≤ N → ∃ r, mdc_sub_fuel N a b = some r := by
  intro N
  induction N with
  | zero => intro a b ha hb h; omega
  | succ N ih =>
    intro a b ha hb h
    by_cases h1 : a = b
    · exact ⟨a, by simp [mdc_sub_fuel, h1]⟩
    · by_cases h2 : a > b
      · have ⟨r, hr⟩ := ih (a - b) b (by omega) hb (by omega)
        exact ⟨r, by simp only [mdc_sub_fuel, if_neg h1, if_pos h2]; exact hr⟩
      · have ⟨r, hr⟩ := ih a (b - a) ha (by omega) (by omega)
        exact ⟨r, by simp only [mdc_sub_fuel, if_neg h1, if_neg h2]; exact hr⟩

/-- With a negative second operand below the first, the subtraction
recursion diverges (a grows forever). -/
theorem mdc_sub_fuel_div_bneg : ∀ (n : Nat) (a b : Int), b < 0 → b < a →
    mdc_sub_fuel n a b = none := by
  intro n
  induction n with
  | zero => intro a b _ _; rfl
  | succ n ih =>
    intro a b hb hba
    have h1 : ¬a = b := by omega
    have h2 : a > b := hba
    simp only [mdc_sub_fuel, if_neg h1, if_pos h2]
    exact ih (a - b) b hb (by omega)

/-- With a positive first operand and zero second operand, the subtraction
recursion is stuck at (a, 0) and diverges. -/
theorem mdc_sub_fuel_div_a0 : ∀ (n : Nat) (a : Int), 0 < a →
    mdc_sub_fuel n a 0 = none := by
  intro n
  induction n with
  | zero => intro a _; rfl
  | succ n ih =>
    intro a ha
    have h1 : ¬a = (0 : Int) := by omega
    have h2 : a > (0 : Int) := ha
    simp only [mdc_sub_fuel, if_neg h1, if_pos h2, sub_zero]
    exact ih a ha

/-- With a nonpositive first operand and positive second operand, the
subtraction recursion diverges (b grows forever). -/
theorem mdc_sub_fuel_div_bpos : ∀ (n : Nat) (a b : Int), a ≤ 0 → 0 < b →
    mdc_sub_fuel n a b = none := by
  intro n
  induction n with
  | zero => intro a b _ _; rfl
  | succ n ih =>
    intro a b ha hb
    have h1 : ¬a = b := by omega
    have h2 : ¬a > b := by omega
    simp only [mdc_sub_fuel, if_neg h1, if_neg h2]
    exact ih a (b - a) ha (by omega)

/-- The subtraction recursion diverges whenever exactly one operand is zero. -/
theorem mdc_sub_fuel_div_zero (n : Nat) (v : Int) (hv : v ≠ 0) :
    mdc_sub_fuel n v 0 = none ∧ mdc_sub_fuel n 0 v = none := by
  constructor
  · rcases lt_or_gt_of_ne hv with h | h
    · cases n with
      | zero => rfl
      | succ n =>
        have h1 : ¬v = (0 : Int) := hv
        have h2 : ¬v > (0 : Int) := by omega
        simp only [mdc_sub_fuel, if_neg h1, if_neg h2, zero_sub]
        exact mdc_sub_fuel_div_bpos n v (-v) (by omega) (by omega)
    · exact mdc_sub_fuel_div_a0 n v h
  · rcases lt_or_gt_of_ne hv with h | h
    · cases n with
      | zero => rfl
      | succ n =>
        have h1 : ¬(0 : Int) = v := fun hh => hv hh.symm
        have h2 : (0 : Int) > v := h
        simp only [mdc_sub_fuel, if_neg h1, if_pos h2, zero_sub]
        exact mdc_sub_fuel_div_bneg n (-v) v h (by omega)
    · exact mdc_sub_fuel_div_bpos n 0 v le_rfl h

-- ===========================================================================
-- Helper lemmas: reference implementation and result validator
-- ===========================================================================

/-- The conditional negation used throughout the source for absolute values
equals the magnitude. -/
theorem condAbs_eq (a : Int) : (if a < 0 then -a else a) = (a.natAbs : Int) := by
  split <;> omega

/-- The reference implementation computes gcd(|a|, |b|) for every input. -/
theorem gcd_reference_correct (a b : Int) :
    gcd_reference_implementation a b = Int.gcd a b := by
  rw [gcd_reference_implementation]
  by_cases h : a = 0 ∧ b = 0
  · simp [h.1, h.2, Int.gcd]
  · rw [if_neg h]
    simp only [condAbs_eq]
    by_cases ha : (a.natAbs : Int) = 0
    · rw [if_pos ha]
      have ha0 : a = 0 := by omega
      simp [ha0, Int.gcd]
    · rw [if_neg ha]
      by_cases hb : (b.natAbs : Int) = 0
      · rw [if_pos hb]
        have hb0 : b = 0 := by omega
        simp [hb0, Int.gcd]
      · rw [if_neg hb]
        rw [mdcModuloGo_eq_gcd _ _ (by positivity) (by positivity)]
        rfl

/-- A common divisor whose cofactors are coprime is the gcd. -/
theorem gcd_eq_of_div_coprime {A B R : Nat} (hA : R ∣ A) (hB : R ∣ B)
    (h1 : Nat.gcd (A / R) (B / R) = 1) : Nat.gcd A B = R := by
  conv_lhs => rw [← Nat.div_mul_cancel hA, ← Nat.div_mul_cancel hB]
  rw [Nat.gcd_mul_right, h1, one_mul]

/-- gcd_validate_result accepts exactly the mathematical gcd (with the
gcd(0,0) = 0 convention), on every integer input. -/
theorem gcd_validate_result_iff (a b r : Int) :
    gcd_validate_result a b r = true ↔ r = (Int.gcd a b : Int) := by
  simp only [gcd_validate_result, condAbs_eq]
  by_cases h00 : a = 0 ∧ b = 0
  · rw [if_pos h00]
    obtain ⟨ha, hb⟩ := h00
    subst ha
    subst hb
    simp [Int.gcd]
  · rw [if_neg h00]
    have hgpos : 0 < Int.gcd a b := by
      rcases not_and_or.mp h00 with h | h
      · exact Int.gcd_pos_of_ne_zero_left b h
      · exact Int.gcd_pos_of_ne_zero_right a h
    by_cases hr : r ≤ 0
    · rw [if_pos hr]
      simp only [Bool.false_eq_true, false_iff]
      intro hcontra
      omega
    · rw [if_neg hr]
      by_cases ha0 : a = 0
      · rw [if_pos ha0]
        subst ha0
        simp [Int.gcd]
      · rw [if_neg ha0]
        by_cases hb0 : b = 0
        · rw [if_pos hb0]
          subst hb0
          simp [Int.gcd]
        · rw [if_neg hb0]
          obtain ⟨R, hR, hRpos⟩ : ∃ R : Nat, r = (R : Int) ∧ 0 < R :=
            ⟨r.toNat, by omega, by omega⟩
          subst hR
          have hmodA : ((a.natAbs : Int)).tmod (R : Int) = ((a.natAbs % R : Nat) : Int) :=
            (Int.ofNat_tmod _ _).symm
          have hmodB : ((b.natAbs : Int)).tmod (R : Int) = ((b.natAbs % R : Nat) : Int) :=
            (Int.ofNat_tmod _ _).symm
          by_cases hdvd : ((a.natAbs : Int)).tmod (R : Int) ≠ 0 ∨ ((b.natAbs : Int)).tmod (R : Int) ≠ 0
          · rw [if_pos hdvd]
            simp only [Bool.false_eq_true, false_iff]
            intro hcontra
            have hReq : R = Int.gcd a b := by omega
            have h1 : R ∣ a.natAbs := hReq ▸ Nat.gcd_dvd_left _ _
            have h2 : R ∣ b.natAbs := hReq ▸ Nat.gcd_dvd_right _ _
            rcases hdvd with hd | hd
            · rw [hmodA] at hd
              have h3 : a.natAbs % R = 0 := Nat.mod_eq_zero_of_dvd h1
              omega
            · rw [hmodB] at hd
              have h3 : b.natAbs % R = 0 := Nat.mod_eq_zero_of_dvd h2
              omega
          · rw [if_neg hdvd]
            push_neg at hdvd
            obtain ⟨hA, hB⟩ := hdvd
            rw [hmodA] at hA
            rw [hmodB] at hB
            have hdA : R ∣ a.natAbs := by omega
            have hdB : R ∣ b.natAbs := by omega
            have htdA : ((a.natAbs : Int)).tdiv (R : Int) = ((a.natAbs / R : Nat) : Int) :=
              (Int.ofNat_tdiv _ _).symm
            have htdB : ((b.natAbs : Int)).tdiv (R : Int) = ((b.natAbs / R : Nat) : Int) :=
              (Int.ofNat_tdiv _ _).symm
            rw [htdA, htdB, gcd_reference_correct]
            have hgr : Int.gcd ((a.natAbs / R : Nat) : Int) ((b.natAbs / R : Nat) : Int) =
                Nat.gcd (a.natAbs / R) (b.natAbs / R) := rfl
            simp only [decide_eq_true_eq, hgr]
            constructor
            · intro h1
              have h1n : Nat.gcd (a.natAbs / R) (b.natAbs / R) = 1 := by omega
              have := gcd_eq_of_div_coprime hdA hdB h1n
              simp only [Int.gcd]
              omega
            · intro h1
              have hReq : R = Int.gcd a b := by omega
              have hc := Nat.coprime_div_gcd_div_gcd (m := a.natAbs) (n := b.natAbs) hgpos
              unfold Nat.Coprime at hc
              have hgg : Int.gcd a b = Nat.gcd a.natAbs b.natAbs := rfl
              rw [hReq, hgg]
              omega

-- ===========================================================================
-- Helper lemmas: gcd arithmetic for the binary algorithm
-- ===========================================================================

/-- Subtracting the second operand from the first preserves the gcd. -/
theorem int_gcd_sub_left (a b : Int) : Int.gcd (a - b) b = Int.gcd a b := by
  apply Nat.dvd_antisymm
  · rw [← Int.natCast_dvd_natCast]
    refine Int.dvd_gcd ?_ Int.gcd_dvd_right
    have h1 : (Int.gcd (a - b) b : Int) ∣ a - b := Int.gcd_dvd_left
    have h2 : (Int.gcd (a - b) b : Int) ∣ b := Int.gcd_dvd_right
    simpa using dvd_add h1 h2
  · rw [← Int.natCast_dvd_natCast]
    refine Int.dvd_gcd ?_ Int.gcd_dvd_right
    exact dvd_sub Int.gcd_dvd_left Int.gcd_dvd_right

/-- Subtracting the first operand from the second preserves the gcd. -/
theorem int_gcd_sub_right (a b : Int) : Int.gcd a (b - a) = Int.gcd a b := by
  apply Nat.dvd_antisymm
  · rw [← Int.natCast_dvd_natCast]
    refine Int.dvd_gcd Int.gcd_dvd_left ?_
    have h1 : (Int.gcd a (b - a) : Int) ∣ a := Int.gcd_dvd_left
    have h2 : (Int.gcd a (b - a) : Int) ∣ b - a := Int.gcd_dvd_right
    simpa using dvd_add h2 h1
  · rw [← Int.natCast_dvd_natCast]
    refine Int.dvd_gcd Int.gcd_dvd_left ?_
    exact dvd_sub Int.gcd_dvd_right Int.gcd_dvd_left

/-- An odd number is coprime to two. -/
theorem coprime_two_of_odd (x : Int) (hx : x.emod 2 = 1) : Nat.Coprime 2 x.natAbs := by
  have hx2 : x % 2 = 1 := hx
  have hodd : x.natAbs % 2 = 1 := by omega
  unfold Nat.Coprime
  rw [Nat.gcd_rec, hodd]
  rfl

/-- Stripping one factor of two from the second operand preserves the gcd
when the first operand is odd. -/
theorem int_gcd_two_mul_right (x r : Int) (hx : x.emod 2 = 1) :
    Int.gcd x (2 * r) = Int.gcd x r := by
  show Nat.gcd x.natAbs ((2 * r).natAbs) = Nat.gcd x.natAbs r.natAbs
  rw [Int.natAbs_mul]
  exact Nat.Coprime.gcd_mul_left_cancel_right r.natAbs (coprime_two_of_odd x hx)

/-- Stripping any power of two from the second operand preserves the gcd
when the first operand is odd. -/
theorem int_gcd_pow_two_mul_right (x r : Int) (k : Nat) (hx : x.emod 2 = 1) :
    Int.gcd x (2 ^ k * r) = Int.gcd x r := by
  induction k with
  | zero => simp
  | succ k ih =>
    rw [show (2 : Int) ^ (k + 1) * r = 2 * (2 ^ k * r) by ring]
    rw [int_gcd_two_mul_right x _ hx, ih]

/-- Halving both operands halves the gcd; doubling form. -/
theorem int_gcd_two_mul_both (a b : Int) : Int.gcd (2 * a) (2 * b) = 2 * Int.gcd a b := by
  have h := Int.gcd_mul_left 2 a b
  simpa using h

-- ===========================================================================
-- Helper lemmas: the Stein loops
-- ===========================================================================

/-- More fuel preserves a successful strip. -/
theorem steinOddFuel_mono : ∀ (n m : Nat), n ≤ m → ∀ (b r : Int),
    steinOddFuel n b = some r → steinOddFuel m b = some r := by
  intro n
  induction n with
  | zero => intro m _ b r h; simp [steinOddFuel] at h
  | succ n ih =>
    intro m hm b r h
    obtain ⟨m2, rfl⟩ : ∃ m2, m = m2 + 1 := ⟨m - 1, by omega⟩
    simp only [steinOddFuel] at h ⊢
    by_cases he : b.emod 2 = 0
    · rw [if_pos he] at h ⊢
      exact ih m2 (by omega) _ r h
    · rw [if_neg he] at h ⊢
      exact h

/-- The stripping loop terminates on every positive input, returning the odd
part; the stripped factor is a power of two. -/
theorem steinOdd_exists : ∀ (N : Nat) (b : Int), 0 < b → b.natAbs ≤ N →
    ∃ n k r, steinOddFuel n b = some r ∧ 0 < r ∧ r.emod 2 = 1 ∧ b = 2 ^ k * r := by
  intro N
  induction N with
  | zero => intro b hb hN; omega
  | succ N ih =>
    intro b hb hN
    by_cases he : b.emod 2 = 0
    · have he2 : b % 2 = 0 := he
      have hhalf : b.fdiv 2 = b / 2 := Int.fdiv_eq_ediv b (by omega)
      obtain ⟨n, k, r, h1, h2, h3, h4⟩ := ih (b / 2) (by omega) (by omega)
      refine ⟨n + 1, k + 1, r, ?_, h2, h3, ?_⟩
      · simp only [steinOddFuel, if_pos he, hhalf]
        exact h1
      · have hsplit : b = 2 * (b / 2) := by omega
        rw [hsplit, h4]; ring
    · have he2 : ¬b % 2 = 0 := he
      refine ⟨1, 0, b, ?_, hb, ?_, by ring⟩
      · simp [steinOddFuel, if_neg he]
      · show b % 2 = 1
        omega

/-- More fuel preserves a successful run of the common-factor loop. -/
theorem steinCommonFuel_mono : ∀ (n m : Nat), n ≤ m →
    ∀ (a b : Int) (s : Nat) (out : Int × Int × Nat),
    steinCommonFuel n a b s = some out → steinCommonFuel m a b s = some out := by
  intro n
  induction n with
  | zero => intro m _ a b s out h; simp [steinCommonFuel] at h
  | succ n ih =>
    intro m hm a b s out h
    obtain ⟨m2, rfl⟩ : ∃ m2, m = m2 + 1 := ⟨m - 1, by omega⟩
    simp only [steinCommonFuel] at h ⊢
    by_cases he : a.emod 2 = 0 ∧ b.emod 2 = 0
    · rw [if_pos he] at h ⊢
      exact ih m2 (by omega) _ _ _ out h
    · rw [if_neg he] at h ⊢
      exact h

/-- The common-factor loop terminates on positive operands, factoring the
same power of two out of both. -/
theorem steinCommon_exists : ∀ (N : Nat) (a b : Int) (s : Nat), 0 < a → 0 < b →
    a.natAbs ≤ N →
    ∃ n a1 b1 d, steinCommonFuel n a b s = some (a1, b1, s + d) ∧ 0 < a1 ∧ 0 < b1 ∧
      ¬(a1.emod 2 = 0 ∧ b1.emod 2 = 0) ∧ a = 2 ^ d * a1 ∧ b = 2 ^ d * b1 := by
  intro N
  induction N with
  | zero => intro a b s ha hb hN; omega
  | succ N ih =>
    intro a b s ha hb hN
    by_cases he : a.emod 2 = 0 ∧ b.emod 2 = 0
    · have hea : a % 2 = 0 := he.1
      have heb : b % 2 = 0 := he.2
      have hfa : a.fdiv 2 = a / 2 := Int.fdiv_eq_ediv a (by omega)
      have hfb : b.fdiv 2 = b / 2 := Int.fdiv_eq_ediv b (by omega)
      obtain ⟨n, a1, b1, d, h1, h2, h3, h4, h5, h6⟩ :=
        ih (a / 2) (b / 2) (s + 1) (by omega) (by omega) (by omega)
      rw [show s + 1 + d = s + (d + 1) from by omega] at h1
      refine ⟨n + 1, a1, b1, d + 1, ?_, h2, h3, h4, ?_, ?_⟩
      · simp only [steinCommonFuel, if_pos he, hfa, hfb]
        exact h1
      · have hsplit : a = 2 * (a / 2) := by omega
        rw [hsplit, h5]; ring
      · have hsplit : b = 2 * (b / 2) := by omega
        rw [hsplit, h6]; ring
    · exact ⟨1, a, b, 0, by simp [steinCommonFuel, if_neg he], ha, hb, he, by ring, by ring⟩

/-- More fuel (in either argument) preserves a successful main-loop run. -/
theorem steinMainFuel_mono : ∀ (n n2 m m2 : Nat), n ≤ n2 → m ≤ m2 → ∀ (a b r : Int),
    steinMainFuel n m a b = some r → steinMainFuel n2 m2 a b = some r := by
  intro n
  induction n with
  | zero => intro n2 m m2 _ _ a b r h; simp [steinMainFuel] at h
  | succ n ih =>
    intro n2 m m2 hn hm a b r h
    obtain ⟨n3, rfl⟩ : ∃ n3, n2 = n3 + 1 := ⟨n2 - 1, by omega⟩
    simp only [steinMainFuel] at h ⊢
    by_cases hb : b = 0
    · rw [if_pos hb] at h ⊢; exact h
    · rw [if_neg hb] at h ⊢
      cases hst : steinOddFuel m b with
      | none => simp [hst] at h
      | some b2 =>
        simp only [hst] at h
        simp only [steinOddFuel_mono m m2 hm b b2 hst]
        by_cases hcmp : a > b2
        · rw [if_pos hcmp] at h ⊢
          exact ih n3 m m2 (by omega) hm _ _ r h
        · rw [if_neg hcmp] at h ⊢
          exact ih n3 m m2 (by omega) hm _ _ r h

/-- Main-loop correctness: starting from a positive a, a nonnegative b, not
both even, the loop computes gcd(a, b). -/
theorem steinMain_exists : ∀ (N : Nat) (a b : Int), 0 < a → 0 ≤ b →
    (a.emod 2 = 1 ∨ b.emod 2 = 1) → a.natAbs + b.natAbs ≤ N →
    ∃ n m, steinMainFuel n m a b = some ((Int.gcd a b : Nat) : Int) := by
  intro N
  induction N with
  | zero => intro a b ha hb hodd hN; omega
  | succ N ih =>
    intro a b ha hb hodd hN
    by_cases hb0 : b = 0
    · subst hb0
      refine ⟨1, 0, ?_⟩
      have hg : Int.gcd a 0 = a.natAbs := by simp [Int.gcd]
      have hcast : ((a.natAbs : Nat) : Int) = a := by omega
      rw [hg, hcast]
      simp [steinMainFuel]
    · have hbpos : 0 < b := by omega
      obtain ⟨n1, k, b2, hstrip, hb2pos, hb2odd, hfact⟩ :=
        steinOdd_exists b.natAbs b hbpos le_rfl
      have h2k : (1 : Int) ≤ 2 ^ k := by
        have hp : (0 : Int) < 2 ^ k := by positivity
        omega
      have hb2le : b2 ≤ b := by
        have h3 := mul_le_mul_of_nonneg_right h2k hb2pos.le
        rw [one_mul, ← hfact] at h3
        exact h3
      have hb2odd2 : b2 % 2 = 1 := hb2odd
      have hgcdstrip : Int.gcd a b = Int.gcd a b2 := by
        rcases hodd with hao | hbo
        · rw [hfact]
          exact int_gcd_pow_two_mul_right a b2 k hao
        · cases k with
          | zero => rw [hfact]; norm_num
          | succ k2 =>
            exfalso
            have hb' : b % 2 = 1 := hbo
            have hb2 : b = 2 * (2 ^ k2 * b2) := by rw [hfact]; ring
            omega
      by_cases hcmp : a > b2
      · obtain ⟨n2, m2, hrec⟩ :=
          ih (a - b2) b2 (by omega) (by omega) (Or.inr hb2odd) (by omega)
        refine ⟨n2 + 1, max n1 m2, ?_⟩
        simp only [steinMainFuel, if_neg hb0]
        simp only [steinOddFuel_mono n1 (max n1 m2) (Nat.le_max_left _ _) b b2 hstrip]
        rw [if_pos hcmp]
        rw [steinMainFuel_mono n2 n2 m2 (max n1 m2) le_rfl (Nat.le_max_right _ _) _ _ _ hrec]
        have heq : Int.gcd (a - b2) b2 = Int.gcd a b := by
          rw [int_gcd_sub_left a b2, ← hgcdstrip]
        rw [heq]
      · have hinv : a.emod 2 = 1 ∨ (b2 - a).emod 2 = 1 := by
          by_cases hae : a % 2 = 1
          · exact Or.inl hae
          · refine Or.inr ?_
            show (b2 - a) % 2 = 1
            omega
        obtain ⟨n2, m2, hrec⟩ :=
          ih a (b2 - a) ha (by omega) hinv (by omega)
        refine ⟨n2 + 1, max n1 m2, ?_⟩
        simp only [steinMainFuel, if_neg hb0]
        simp only [steinOddFuel_mono n1 (max n1 m2) (Nat.le_max_left _ _) b b2 hstrip]
        rw [if_neg hcmp]
        rw [steinMainFuel_mono n2 n2 m2 (max n1 m2) le_rfl (Nat.le_max_right _ _) _ _ _ hrec]
        have heq : Int.gcd a (b2 - a) = Int.gcd a b := by
          rw [int_gcd_sub_right a b2, ← hgcdstrip]
        rw [heq]

/-- mdc_stein computes the gcd on every pair of nonnegative operands, given
enough fuel. -/
theorem mdc_stein_fuel_correct (a b : Int) (ha : 0 ≤ a) (hb : 0 ≤ b) :
    ∃ n m, mdc_stein_fuel n m a b = some ((Int.gcd a b : Nat) : Int) := by
  by_cases ha0 : a = 0
  · subst ha0
    refine ⟨0, 0, ?_⟩
    have hg : Int.gcd 0 b = b.natAbs := by simp [Int.gcd]
    have hcast : ((b.natAbs : Nat) : Int) = b := by omega
    rw [hg, hcast]
    simp [mdc_stein_fuel]
  · by_cases hb0 : b = 0
    · subst hb0
      refine ⟨0, 0, ?_⟩
      have hg : Int.gcd a 0 = a.natAbs := by simp [Int.gcd]
      have hcast : ((a.natAbs : Nat) : Int) = a := by omega
      rw [hg, hcast]
      simp [mdc_stein_fuel, ha0]
    · have hapos : 0 < a := by omega
      have hbpos : 0 < b := by omega
      obtain ⟨n1, a1, b1, d, hcom, ha1, hb1, hne, hfa, hfb⟩ :=
        steinCommon_exists a.natAbs a b 0 hapos hbpos le_rfl
      rw [zero_add] at hcom
      obtain ⟨n2, k, a2, hstrip, ha2, ha2odd, hfact2⟩ :=
        steinOdd_exists a1.natAbs a1 ha1 le_rfl
      have hga : Int.gcd a1 b1 = Int.gcd a2 b1 := by
        by_cases hae : a1.emod 2 = 0
        · have hb1odd : b1.emod 2 = 1 := by
            have h1 : ¬b1 % 2 = 0 := fun hh => hne ⟨hae, hh⟩
            show b1 % 2 = 1
            omega
          rw [Int.gcd_comm a1 b1, Int.gcd_comm a2 b1, hfact2]
          exact int_gcd_pow_two_mul_right b1 a2 k hb1odd
        · cases k with
          | zero => rw [hfact2]; norm_num
          | succ k2 =>
            exfalso
            have h1 : ¬a1 % 2 = 0 := hae
            have h2 : a1 = 2 * (2 ^ k2 * a2) := by rw [hfact2]; ring
            omega
      obtain ⟨n3, m3, hmain⟩ :=
        steinMain_exists (a2.natAbs + b1.natAbs) a2 b1 ha2 hb1.le (Or.inl ha2odd) le_rfl
      refine ⟨max n1 n3, max n2 m3, ?_⟩
      simp only [mdc_stein_fuel, if_neg ha0, if_neg hb0]
      simp only [steinCommonFuel_mono n1 (max n1 n3) (Nat.le_max_left _ _) a b 0 _ hcom]
      simp only [steinOddFuel_mono n2 (max n2 m3) (Nat.le_max_left _ _) a1 a2 hstrip]
      rw [steinMainFuel_mono n3 (max n1 n3) m3 (max n2 m3)
        (Nat.le_max_right _ _) (Nat.le_max_right _ _) _ _ _ hmain]
      have hgab : Int.gcd a b = 2 ^ d * Int.gcd a1 b1 := by
        rw [hfa, hfb, Int.gcd_mul_left]
        congr 1
        simp [Int.natAbs_pow]
      rw [← hga, hgab]
      have hmap : Option.map (fun r => r * 2 ^ d) (some ((Int.gcd a1 b1 : Nat) : Int)) =
          some (((Int.gcd a1 b1 : Nat) : Int) * 2 ^ d) := rfl
      rw [hmap]
      congr 1
      push_cast
      ring

-- ===========================================================================
-- Remaining helper lemmas
-- ===========================================================================

/-- mdc_subtracao is symmetric in its operands, fuel for fuel. -/
theorem mdc_subtracao_fuel_comm (n : Nat) (a b : Int) :
    mdc_subtracao_fuel n a b = mdc_subtracao_fuel n b a := by
  simp only [mdc_subtracao_fuel]
  rw [mdcSubtracaoLoopFuel_eq, mdcSubtracaoLoopFuel_eq]
  by_cases h : (if a < 0 then -a else a) = 0 ∧ (if b < 0 then -b else b) = 0
  · rw [if_pos h, if_pos ⟨h.2, h.1⟩]
  · have hswap : ¬((if b < 0 then -b else b) = 0 ∧ (if a < 0 then -a else a) = 0) :=
      fun hh => h ⟨hh.2, hh.1⟩
    rw [if_neg h, if_neg hswap, mdc_sub_fuel_comm]

/-- Divergence of the mdc_sub recursion at a given input: every amount of
fuel is exhausted. -/
def mdcSubDiverges (a b : Int) : Prop := ∀ n : Nat, mdc_sub_fuel n a b = none

-- ===========================================================================
-- Claim theorems
-- ===========================================================================

/-- Counterexample to C1 as stated: at (INT64_MIN, -1) - and one recursion
step later also at (-1, INT64_MIN) - the C mdc_ext evaluates
LLONG_MIN % -1, whose quotient overflows int64 (undefined behavior), so no
triple is returned; the int64-checked model yields none there. -/
theorem claim_C1_counterexample :
    mdc_ext_i64 LLONG_MIN (-1) = none ∧ mdc_ext_i64 (-1) LLONG_MIN = none := by
  have h1 : mdc_ext_i64 LLONG_MIN (-1) = none := by
    rw [mdc_ext_i64]
    rw [if_neg (by decide : ¬(-1 : Int) = 0)]
    rw [if_pos ⟨rfl, rfl⟩]
  refine ⟨h1, ?_⟩
  rw [mdc_ext_i64]
  rw [if_neg (by decide : ¬LLONG_MIN = 0)]
  rw [if_neg (by decide : ¬((-1 : Int) = LLONG_MIN ∧ LLONG_MIN = (-1 : Int)))]
  rw [show ((-1 : Int)).tmod LLONG_MIN = -1 from by decide]
  rw [h1]

/-- C1 (amended): for every int64 pair (a, b) other than (INT64_MIN, -1)
and (-1, INT64_MIN), mdc_ext avoids the overflowing division (the
int64-checked run returns a triple and agrees with the unbounded model),
terminates (finite fuel suffices), and the returned triple satisfies
a*x + b*y = g exactly in integer arithmetic, including negative and zero
operands; at the two excluded pairs the C evaluation of LLONG_MIN % -1
overflows int64 and has undefined behavior. -/
theorem claim_C1_amended_bezout : ∀ a b : Int,
    -(2 ^ 63) ≤ a → a < 2 ^ 63 → -(2 ^ 63) ≤ b → b < 2 ^ 63 →
    ¬(a = LLONG_MIN ∧ b = -1) → ¬(a = -1 ∧ b = LLONG_MIN) →
    mdc_ext_i64 a b = some (mdc_ext a b) ∧
    (∃ n, mdc_ext_fuel n a b = some (mdc_ext a b)) ∧
    a * (mdc_ext a b).x + b * (mdc_ext a b).y = (mdc_ext a b).g :=
  fun a b ha1 ha2 hb1 hb2 h1 h2 =>
    ⟨mdc_ext_i64_eq a b ha1 ha2 hb1 hb2 h1 h2,
     ⟨b.natAbs + 1, mdc_ext_fuel_complete b.natAbs a b le_rfl⟩,
     mdc_ext_bezout a b⟩

/-- Witness for C1 (amended) at (48, 18). -/
theorem claim_C1_witness :
    mdc_ext_i64 48 18 = some (mdc_ext 48 18) ∧
    48 * (mdc_ext 48 18).x + 18 * (mdc_ext 48 18).y = (mdc_ext 48 18).g :=
  ⟨(claim_C1_amended_bezout 48 18 (by decide) (by decide) (by decide) (by decide)
      (by decide) (by decide)).1,
   (claim_C1_amended_bezout 48 18 (by decide) (by decide) (by decide) (by decide)
      (by decide) (by decide)).2.2⟩

/-- C2: for operands away from INT64_MIN, gcd_validate_result(a, b, r)
returns true exactly when r is the mathematical gcd of a and b (r = 0 when
a = b = 0, else the greatest positive common divisor of the magnitudes). -/
theorem claim_C2_validator_exact : ∀ a b r : Int, a ≠ LLONG_MIN → b ≠ LLONG_MIN →
    (gcd_validate_result a b r = true ↔ r = ((Int.gcd a b : Nat) : Int)) :=
  fun a b r _ _ => gcd_validate_result_iff a b r

/-- Witness for C2 at (48, 18, 6). -/
theorem claim_C2_witness : gcd_validate_result 48 18 6 = true :=
  (claim_C2_validator_exact 48 18 6 (by decide) (by decide)).mpr (by norm_num)

/-- Counterexample to C3 as stated: mdc_sub(5, 0) does not terminate (the
recursion is stuck at (5, 0), so every amount of fuel is exhausted). -/
theorem claim_C3_counterexample : mdcSubDiverges 5 0 :=
  fun n => (mdc_sub_fuel_div_zero n 5 (by decide)).1

/-- C3 (amended, keeping the original exclusion of INT64_MIN operands):
with both operands int64 values different from INT64_MIN - on that domain
no arithmetic of these code paths leaves int64 - mdc_modulo, mdc_divisao,
mdc_mod and mdc_ext terminate on every pair; mdc_subtracao terminates when
both operands are nonzero or both are zero; mdc_stein terminates on
nonnegative operands; mdc_sub terminates when both operands are positive or
the operands are equal; but mdc_sub(5, 0) does not terminate, so the seven
functions are not all total even on that domain. -/
theorem claim_C3_amended_termination : ∀ a b : Int,
    -(2 ^ 63) < a → a < 2 ^ 63 → -(2 ^ 63) < b → b < 2 ^ 63 →
    (∃ n, mdc_modulo_fuel n a b = some (mdc_modulo a b)) ∧
    (∃ n, mdc_divisao_fuel n a b = some (mdc_divisao a b)) ∧
    (∃ n, mdc_mod_fuel n a b = some (mdc_mod a b)) ∧
    (∃ n, mdc_ext_fuel n a b = some (mdc_ext a b)) ∧
    ((a ≠ 0 ∧ b ≠ 0) ∨ (a = 0 ∧ b = 0) →
      ∃ n r, mdc_subtracao_fuel n a b = some r) ∧
    (0 ≤ a → 0 ≤ b → ∃ n m r, mdc_stein_fuel n m a b = some r) ∧
    ((0 < a ∧ 0 < b) ∨ a = b → ∃ n r, mdc_sub_fuel n a b = some r) := by
  intro a b _ _ _ _
  refine ⟨?_, ?_, ?_, ?_, ?_, ?_, ?_⟩
  · refine ⟨b.natAbs + 1, ?_⟩
    rw [mdc_modulo_fuel, mdc_modulo]
    by_cases h : a = 0 ∧ b = 0
    · rw [if_pos h, if_pos h]
    · rw [if_neg h, if_neg h]
      exact mdcModuloFuel_complete b.natAbs a b le_rfl
  · refine ⟨b.natAbs + 1, ?_⟩
    rw [mdc_divisao_fuel, mdc_divisao]
    by_cases h : a = 0 ∧ b = 0
    · rw [if_pos h, if_pos h]
    · rw [if_neg h, if_neg h]
      rw [mdcDivisaoFuel_complete b.natAbs a b le_rfl, mdcDivisaoGo_eq]
  · exact ⟨b.natAbs + 1, mdc_mod_fuel_complete b.natAbs a b le_rfl⟩
  · exact ⟨b.natAbs + 1, mdc_ext_fuel_complete b.natAbs a b le_rfl⟩
  · intro h
    rcases h with ⟨ha, hb⟩ | ⟨ha, hb⟩
    · obtain ⟨r, hr⟩ := mdc_sub_fuel_pos (a.natAbs + b.natAbs)
        (a.natAbs : Int) (b.natAbs : Int) (by omega) (by omega) (by omega)
      refine ⟨a.natAbs + b.natAbs, r, ?_⟩
      simp only [mdc_subtracao_fuel, condAbs_eq]
      rw [if_neg (by omega : ¬((a.natAbs : Int) = 0 ∧ (b.natAbs : Int) = 0))]
      rw [mdcSubtracaoLoopFuel_eq]
      exact hr
    · subst ha
      subst hb
      exact ⟨0, 0, by simp [mdc_subtracao_fuel]⟩
  · intro ha hb
    obtain ⟨n, m, h⟩ := mdc_stein_fuel_correct a b ha hb
    exact ⟨n, m, _, h⟩
  · intro h
    rcases h with ⟨ha, hb⟩ | heq
    · obtain ⟨r, hr⟩ := mdc_sub_fuel_pos (a.natAbs + b.natAbs) a b ha hb le_rfl
      exact ⟨a.natAbs + b.natAbs, r, hr⟩
    · subst heq
      exact ⟨1, a, by simp [mdc_sub_fuel]⟩

/-- Witness for C3 (amended) at the concrete input (48, 18). -/
theorem claim_C3_witness :
    (∃ n r, mdc_subtracao_fuel n 48 18 = some r) ∧
    (∃ n m r, mdc_stein_fuel n m 48 18 = some r) ∧
    (∃ n r, mdc_sub_fuel n 48 18 = some r) :=
  ⟨(claim_C3_amended_termination 48 18 (by decide) (by decide) (by decide)
      (by decide)).2.2.2.2.1 (Or.inl ⟨by decide, by decide⟩),
   (claim_C3_amended_termination 48 18 (by decide) (by decide) (by decide)
      (by decide)).2.2.2.2.2.1 (by decide) (by decide),
   (claim_C3_amended_termination 48 18 (by decide) (by decide) (by decide)
      (by decide)).2.2.2.2.2.2 (Or.inl ⟨by decide, by decide⟩)⟩

/-- Counterexample to C4 as stated: mdc_modulo(-12, 8) is -4, not 4, and in
particular not nonnegative; mdc_divisao agrees. -/
theorem claim_C4_counterexample :
    mdc_modulo (-12) 8 = -4 ∧ mdc_divisao (-12) 8 = -4 ∧ ¬(0 ≤ mdc_modulo (-12) 8) := by
  have h : mdc_modulo (-12) 8 = -4 := by
    rw [mdc_modulo_eq_go]
    exact mdcModuloFuel_sound 5 (-12) 8 (-4) (by decide)
  have h2 : mdc_divisao (-12) 8 = -4 := by
    rw [mdc_divisao_eq_go]
    exact mdcModuloFuel_sound 5 (-12) 8 (-4) (by decide)
  exact ⟨h, h2, by rw [h]; decide⟩

/-- C4 (amended, keeping the original exclusion of INT64_MIN operands):
with both operands int64 values different from INT64_MIN and not both zero
- a domain on which the loops meet no int64 overflow - mdc_modulo and
mdc_divisao terminate (fuel bounds are in the C3 theorem) and return a
nonzero value whose magnitude is exactly gcd(|a|, |b|) >= 1; the value
itself can be negative when an operand is negative, e.g.
mdc_modulo(-12, 8) = -4, so the claimed nonnegativity fails. -/
theorem claim_C4_amended : ∀ a b : Int,
    -(2 ^ 63) < a → a < 2 ^ 63 → -(2 ^ 63) < b → b < 2 ^ 63 → ¬(a = 0 ∧ b = 0) →
    (mdc_modulo a b).natAbs = Int.gcd a b ∧ 1 ≤ (mdc_modulo a b).natAbs ∧
    (mdc_divisao a b).natAbs = Int.gcd a b ∧ 1 ≤ (mdc_divisao a b).natAbs := by
  intro a b _ _ _ _ h
  have hpos : 0 < Int.gcd a b := by
    rcases not_and_or.mp h with hh | hh
    · exact Int.gcd_pos_of_ne_zero_left b hh
    · exact Int.gcd_pos_of_ne_zero_right a hh
  have h1 : (mdc_modulo a b).natAbs = Int.gcd a b := by
    rw [mdc_modulo_eq_go]
    exact mdcModuloGo_natAbs a b
  have h2 : (mdc_divisao a b).natAbs = Int.gcd a b := by
    rw [mdc_divisao_eq_go]
    exact mdcModuloGo_natAbs a b
  exact ⟨h1, by omega, h2, by omega⟩

/-- Witness for C4 (amended) at (-12, 8). -/
theorem claim_C4_witness :
    (mdc_modulo (-12) 8).natAbs = Int.gcd (-12) 8 ∧ 1 ≤ (mdc_modulo (-12) 8).natAbs :=
  ⟨(claim_C4_amended (-12) 8 (by decide) (by decide) (by decide) (by decide)
      (by decide)).1,
   (claim_C4_amended (-12) 8 (by decide) (by decide) (by decide) (by decide)
      (by decide)).2.1⟩

/-- C5: on nonnegative operands mdc_stein terminates (finite fuel suffices)
and computes the mathematical gcd, with gcd(0, 0) = 0. -/
theorem claim_C5_stein_correct : ∀ a b : Int, 0 ≤ a → 0 ≤ b →
    ∃ n m, mdc_stein_fuel n m a b = some ((Int.gcd a b : Nat) : Int) :=
  fun a b ha hb => mdc_stein_fuel_correct a b ha hb

/-- Witness for C5 at (48, 18). -/
theorem claim_C5_witness : ∃ n m, mdc_stein_fuel n m 48 18 = some 6 := by
  have h := claim_C5_stein_correct 48 18 (by decide) (by decide)
  have hg : ((Int.gcd 48 18 : Nat) : Int) = 6 := by norm_num
  rw [hg] at h
  exact h

/-- C6: mdc_divisao computes the remainder manually as a - b*(a/b) but
produces exactly the same value as mdc_modulo on every int64 pair. -/
theorem claim_C6_divisao_eq_modulo : ∀ a b : Int, mdc_divisao a b = mdc_modulo a b :=
  fun a b => by rw [mdc_divisao_eq_go, mdc_modulo_eq_go]

/-- Counterexample to C7 as stated: mdc_modulo(-5, 0) returns -5, not
|-5| = 5. -/
theorem claim_C7_counterexample : mdc_modulo (-5) 0 = -5 ∧ mdc_modulo (-5) 0 ≠ 5 := by
  have h : mdc_modulo (-5) 0 = -5 := by
    rw [mdc_modulo_eq_go]
    exact mdcModuloFuel_sound 2 (-5) 0 (-5) (by decide)
  refine ⟨h, ?_⟩
  rw [h]
  decide

/-- C7 (amended): all seven variants return 0 on (0, 0); the five variants
mdc_modulo, mdc_divisao, mdc_mod, mdc_ext (gcd component) and mdc_stein
satisfy f(a, 0) = a and f(0, b) = b for nonnegative operands (so the |.| of
the claim holds only on nonnegative operands: for a negative operand the
result keeps the sign, see the counterexample); mdc_subtracao does not
terminate at all on (v, 0) and (0, v) for nonzero int64 v other than
INT64_MIN (its loop is stuck at (|v|, 0) resp. (0, |v|), values that stay
int64 representable), and mdc_sub does not terminate on (v, 0) and (0, v)
for positive int64 v (stuck at (v, 0) resp. (0, v)). -/
theorem claim_C7_amended_zero_identities :
    (mdc_modulo 0 0 = 0 ∧ mdc_divisao 0 0 = 0 ∧ mdc_mod 0 0 = 0 ∧ (mdc_ext 0 0).g = 0 ∧
      (∀ n, mdc_subtracao_fuel n 0 0 = some 0) ∧ (∀ n, mdc_sub_fuel (n + 1) 0 0 = some 0) ∧
      (∀ n m, mdc_stein_fuel n m 0 0 = some 0)) ∧
    (∀ a : Int, 0 ≤ a →
      mdc_modulo a 0 = a ∧ mdc_divisao a 0 = a ∧ mdc_mod a 0 = a ∧ (mdc_ext a 0).g = a ∧
      (∀ n m, mdc_stein_fuel n m a 0 = some a)) ∧
    (∀ b : Int, 0 ≤ b →
      mdc_modulo 0 b = b ∧ mdc_divisao 0 b = b ∧ mdc_mod 0 b = b ∧ (mdc_ext 0 b).g = b ∧
      (∀ n m, mdc_stein_fuel n m 0 b = some b)) ∧
    (∀ v : Int, -(2 ^ 63) < v → v < 2 ^ 63 → v ≠ 0 → ∀ n,
      mdc_subtracao_fuel n v 0 = none ∧ mdc_subtracao_fuel n 0 v = none) ∧
    (∀ v : Int, 0 < v → v < 2 ^ 63 → ∀ n,
      mdc_sub_fuel n v 0 = none ∧ mdc_sub_fuel n 0 v = none) := by
  refine ⟨⟨?_, ?_, ?_, ?_, ?_, ?_, ?_⟩, ?_, ?_, ?_, ?_⟩
  · decide
  · decide
  · rw [mdc_mod_eq_go]
    exact mdcModuloFuel_sound 1 0 0 0 (by decide)
  · rw [mdc_ext_g_eq]
    exact mdcModuloFuel_sound 1 0 0 0 (by decide)
  · intro n
    simp [mdc_subtracao_fuel]
  · intro n
    simp [mdc_sub_fuel]
  · intro n m
    simp [mdc_stein_fuel]
  · intro a _
    refine ⟨?_, ?_, ?_, ?_, ?_⟩
    · rw [mdc_modulo_eq_go, mdcModuloGo]
      simp
    · rw [mdc_divisao_eq_go, mdcModuloGo]
      simp
    · rw [mdc_mod_eq_go, mdcModuloGo]
      simp
    · rw [mdc_ext_g_eq, mdcModuloGo]
      simp
    · intro n m
      by_cases h : a = 0
      · simp [mdc_stein_fuel, h]
      · simp [mdc_stein_fuel, h]
  · intro b _
    by_cases hb0 : b = 0
    · subst hb0
      refine ⟨by decide, by decide, ?_, ?_, ?_⟩
      · rw [mdc_mod_eq_go]
        exact mdcModuloFuel_sound 1 0 0 0 (by decide)
      · rw [mdc_ext_g_eq]
        exact mdcModuloFuel_sound 1 0 0 0 (by decide)
      · intro n m
        simp [mdc_stein_fuel]
    · refine ⟨?_, ?_, ?_, ?_, ?_⟩
      · rw [mdc_modulo_eq_go, mdcModuloGo, if_neg hb0, Int.zero_tmod, mdcModuloGo, if_pos rfl]
      · rw [mdc_divisao_eq_go, mdcModuloGo, if_neg hb0, Int.zero_tmod, mdcModuloGo, if_pos rfl]
      · rw [mdc_mod_eq_go, mdcModuloGo, if_neg hb0, Int.zero_tmod, mdcModuloGo, if_pos rfl]
      · rw [mdc_ext_g_eq, mdcModuloGo, if_neg hb0, Int.zero_tmod, mdcModuloGo, if_pos rfl]
      · intro n m
        simp [mdc_stein_fuel]
  · intro v _ _ hv n
    constructor
    · simp only [mdc_subtracao_fuel, condAbs_eq, Int.natAbs_zero, Nat.cast_zero,
        and_true, true_and]
      rw [if_neg (by omega : ¬(v.natAbs : Int) = 0)]
      rw [mdcSubtracaoLoopFuel_eq]
      exact mdc_sub_fuel_div_a0 n (v.natAbs : Int) (by omega)
    · simp only [mdc_subtracao_fuel, condAbs_eq, Int.natAbs_zero, Nat.cast_zero,
        and_true, true_and]
      rw [if_neg (by omega : ¬(v.natAbs : Int) = 0)]
      rw [mdcSubtracaoLoopFuel_eq]
      exact mdc_sub_fuel_div_bpos n 0 (v.natAbs : Int) le_rfl (by omega)
  · intro v hv _ n
    exact ⟨(mdc_sub_fuel_div_zero n v (by omega)).1,
           (mdc_sub_fuel_div_zero n v (by omega)).2⟩

/-- Witness for C7 (amended) at a = 7 and v = 7. -/
theorem claim_C7_witness :
    mdc_modulo 7 0 = 7 ∧ mdc_subtracao_fuel 3 7 0 = none ∧ mdc_sub_fuel 3 7 0 = none :=
  ⟨(claim_C7_amended_zero_identities.2.1 7 (by decide)).1,
   (claim_C7_amended_zero_identities.2.2.2.1 7 (by decide) (by decide) (by decide) 3).1,
   (claim_C7_amended_zero_identities.2.2.2.2 7 (by decide) (by decide) 3).1⟩

/-- Counterexample to C8 as stated: mdc_modulo(5, -5) = -5 while
mdc_modulo(-5, 5) = 5, so commutativity fails on mixed signs. -/
theorem claim_C8_counterexample :
    mdc_modulo 5 (-5) = -5 ∧ mdc_modulo (-5) 5 = 5 ∧
    mdc_modulo 5 (-5) ≠ mdc_modulo (-5) 5 := by
  have h1 : mdc_modulo 5 (-5) = -5 := by
    rw [mdc_modulo_eq_go]
    exact mdcModuloFuel_sound 3 5 (-5) (-5) (by decide)
  have h2 : mdc_modulo (-5) 5 = 5 := by
    rw [mdc_modulo_eq_go]
    exact mdcModuloFuel_sound 3 (-5) 5 5 (by decide)
  refine ⟨h1, h2, ?_⟩
  rw [h1, h2]
  decide

/-- C8 (amended): the two subtraction variants are symmetric step for step
on all int64 pairs (the same fuel gives the same answer, divergence
included); the other five variants are commutative on nonnegative operands
(both orders compute gcd(a, b)); on mixed signs the modulo family can
differ in sign (see the counterexample). -/
theorem claim_C8_amended_commutativity :
    (∀ (n : Nat) (a b : Int), mdc_subtracao_fuel n a b = mdc_subtracao_fuel n b a) ∧
    (∀ (n : Nat) (a b : Int), mdc_sub_fuel n a b = mdc_sub_fuel n b a) ∧
    (∀ a b : Int, 0 ≤ a → 0 ≤ b →
      mdc_modulo a b = mdc_modulo b a ∧ mdc_divisao a b = mdc_divisao b a ∧
      mdc_mod a b = mdc_mod b a ∧ (mdc_ext a b).g = (mdc_ext b a).g ∧
      (∃ n m, mdc_stein_fuel n m a b = some ((Int.gcd a b : Nat) : Int)) ∧
      (∃ n m, mdc_stein_fuel n m b a = some ((Int.gcd a b : Nat) : Int))) := by
  refine ⟨mdc_subtracao_fuel_comm, mdc_sub_fuel_comm, ?_⟩
  intro a b ha hb
  refine ⟨?_, ?_, ?_, ?_, ?_, ?_⟩
  · rw [mdc_modulo_eq_go, mdc_modulo_eq_go, mdcModuloGo_eq_gcd a b ha hb,
      mdcModuloGo_eq_gcd b a hb ha, Int.gcd_comm]
  · rw [mdc_divisao_eq_go, mdc_divisao_eq_go, mdcModuloGo_eq_gcd a b ha hb,
      mdcModuloGo_eq_gcd b a hb ha, Int.gcd_comm]
  · rw [mdc_mod_eq_go, mdc_mod_eq_go, mdcModuloGo_eq_gcd a b ha hb,
      mdcModuloGo_eq_gcd b a hb ha, Int.gcd_comm]
  · rw [mdc_ext_g_eq, mdc_ext_g_eq, mdcModuloGo_eq_gcd a b ha hb,
      mdcModuloGo_eq_gcd b a hb ha, Int.gcd_comm]
  · exact mdc_stein_fuel_correct a b ha hb
  · obtain ⟨n, m, h⟩ := mdc_stein_fuel_correct b a hb ha
    rw [Int.gcd_comm b a] at h
    exact ⟨n, m, h⟩

/-- Witness for C8 (amended) at (48, 18). -/
theorem claim_C8_witness : mdc_modulo 48 18 = mdc_modulo 18 48 :=
  (claim_C8_amended_commutativity.2.2 48 18 (by decide) (by decide)).1

/-- Counterexample to C9 as stated: gcd_validate_input accepts
(INT64_MIN, 5) even though one operand is INT64_MIN. -/
theorem claim_C9_counterexample : gcd_validate_input LLONG_MIN 5 = true := by decide

/-- C9 (amended): gcd_validate_input rejects a pair exactly when BOTH
operands are INT64_MIN, while math_validate_gcd_input signals
MATH_ERROR_OVERFLOW exactly when EITHER operand is INT64_MIN. -/
theorem claim_C9_amended_input_gate : ∀ a b : Int,
    (gcd_validate_input a b = false ↔ (a = LLONG_MIN ∧ b = LLONG_MIN)) ∧
    (math_validate_gcd_input a b = MathStatus.errorOverflow ↔
      (a = LLONG_MIN ∨ b = LLONG_MIN)) := by
  intro a b
  constructor
  · rw [gcd_validate_input]
    by_cases h : a = LLONG_MIN ∧ b = LLONG_MIN
    · simp [h]
    · simp [h]
  · rw [math_validate_gcd_input]
    by_cases h : a = LLONG_MIN ∨ b = LLONG_MIN
    · simp [h]
    · simp [h]

/-- C10: for any algorithm plugged into the shared compute-entry shape, the
special-case layer answers (v, 0), (0, v) and (v, v) inputs by itself: with
the relevant operand at INT64_MIN it yields the error MathResult (status
MATH_ERROR_OVERFLOW, is_valid false, value MATH_INVALID_VALUE), and
otherwise a success result carrying the absolute value - the algorithm
parameter is never consulted. -/
theorem claim_C10_entry_special : ∀ (alg : Int → Int → Int) (v : Int),
    gcd_compute_entry alg LLONG_MIN 0 = math_create_error_result MathStatus.errorOverflow 0 ∧
    gcd_compute_entry alg 0 LLONG_MIN = math_create_error_result MathStatus.errorOverflow 0 ∧
    gcd_compute_entry alg LLONG_MIN LLONG_MIN =
      math_create_error_result MathStatus.errorOverflow 0 ∧
    (v ≠ 0 → LLONG_MIN < v →
      gcd_compute_entry alg v 0 = math_create_success_result (MATH_ABS v) 0 ∧
      gcd_compute_entry alg 0 v = math_create_success_result (MATH_ABS v) 0 ∧
      gcd_compute_entry alg v v = math_create_success_result (MATH_ABS v) 0) := by
  intro alg v
  refine ⟨rfl, rfl, rfl, ?_⟩
  intro hv hmin
  have hvne : v ≠ LLONG_MIN := fun h => by rw [h] at hmin; exact lt_irrefl _ hmin
  refine ⟨?_, ?_, ?_⟩
  · simp only [gcd_compute_entry, math_handle_gcd_special_cases, and_true, true_and,
      and_self, if_true]
    rw [if_neg hv]
    simp only [math_safe_abs, if_neg hvne]
    rfl
  · simp only [gcd_compute_entry, math_handle_gcd_special_cases, and_true, true_and,
      and_self, if_true]
    rw [if_neg hv]
    rw [if_neg hv]
    simp only [math_safe_abs, if_neg hvne]
    rfl
  · simp only [gcd_compute_entry, math_handle_gcd_special_cases, and_true, true_and,
      and_self, eq_self_iff_true, if_true]
    rw [if_neg hv]
    rw [if_neg hv]
    rw [if_neg hv]
    simp only [math_safe_abs, if_neg hvne]
    rfl

/-- Witness for C10 with a concrete algorithm stub and v = -12. -/
theorem claim_C10_witness :
    gcd_compute_entry (fun _ _ => 37) (-12) 0 = math_create_success_result (MATH_ABS (-12)) 0 ∧
    gcd_compute_entry (fun _ _ => 37) 0 LLONG_MIN =
      math_create_error_result MathStatus.errorOverflow 0 :=
  ⟨((claim_C10_entry_special (fun _ _ => 37) (-12)).2.2.2 (by decide) (by decide)).1,
   (claim_C10_entry_special (fun _ _ => 37) (-12)).2.1⟩
